import Mathlib

/-!
Verification of the Mental Sprint arithmetic-drill app
(`src/app/src/routes/+page.svelte`).

The `<script>` block of that Svelte component is shallow-embedded below:

* JS numbers are modelled as `Int` (every value the program manipulates is a
  small exact integer; division only ever happens with a nonzero divisor that
  divides the dividend exactly, where every division convention agrees).
* `Math.random()`-derived draws are passed in explicitly through a `Rand`
  record: `Math.floor(Math.random() * k)` is an arbitrary `Nat < k`, and
  `Math.random() > 0.5` is an arbitrary `Bool`.
* `setInterval` / `setTimeout` callbacks are modelled as events on an explicit
  application state (`AppState`): the countdown is an armed/disarmed flag
  plus a `tick` event, and the feedback `setTimeout`s of `handleAnswer` are a
  queue of pending callbacks consumed by a `fireFeedback` event.  The source
  never stores or clears the `setTimeout` handles, so no transition removes
  entries from that queue except firing them.
* Template-literal interpolation of a number (`` `${n}` ``) is modelled by an
  executable decimal renderer (`intDecChars`).
* Dates: `new Date().toISOString()` strings are modelled by their epoch
  timestamp (an `Int`); `new Date(s).getTime()` is then the identity, which
  preserves exactly the comparisons the code performs.
* Encoding note: the checked-in source file is systematically UTF-8
  double-encoded (every non-ASCII character, including the medal emojis in
  the markup, shows the same mojibake pattern).  String literals are
  therefore modelled by their decoded characters: the display symbols in
  `generateProblem` and `configKey` are the one-character strings of
  U+00D7 `×` and U+00F7 `÷`.
-/

namespace MathSprint

/-- Configuration flags, mirroring `type Config` in the source: four operator
flags and two modifier flags. -/
structure Config where
  add : Bool
  sub : Bool
  mul : Bool
  div : Bool
  negatives : Bool
  doubleDigits : Bool
deriving DecidableEq, Fintype, Repr

/-- Keys of a `Config`, mirroring `keyof Config`. -/
inductive ConfigKey where
  | add | sub | mul | div | negatives | doubleDigits
deriving DecidableEq, Fintype, Repr

/-- Field lookup `config[key]`. -/
def getFlag (c : Config) : ConfigKey → Bool
  | .add => c.add
  | .sub => c.sub
  | .mul => c.mul
  | .div => c.div
  | .negatives => c.negatives
  | .doubleDigits => c.doubleDigits

/-- Field assignment `config[key] = b`. -/
def setFlag (c : Config) (k : ConfigKey) (b : Bool) : Config :=
  match k with
  | .add => { c with add := b }
  | .sub => { c with sub := b }
  | .mul => { c with mul := b }
  | .div => { c with div := b }
  | .negatives => { c with negatives := b }
  | .doubleDigits => { c with doubleDigits := b }

/-- Whether `k` is one of the four operator keys
(`key !== 'negatives' && key !== 'doubleDigits'`). -/
def isOpKey (k : ConfigKey) : Bool :=
  !(k = ConfigKey.negatives) && !(k = ConfigKey.doubleDigits)

/-- Number of active operator flags:
`(['add','sub','mul','div'] as const).filter(k => config[k]).length`. -/
def activeOps (c : Config) : Nat :=
  ([c.add, c.sub, c.mul, c.div].filter (· = true)).length

/-- Embedding of `toggleConfig`: refuses to clear the last active operator
flag, otherwise negates the addressed flag. -/
def toggleConfig (c : Config) (k : ConfigKey) : Config :=
  if isOpKey k ∧ activeOps c = 1 ∧ getFlag c k then c
  else setFlag c k (!getFlag c k)

/-! ### Decimal rendering

`fmtChars` renders an operand the way the template literal
`` n < 0 ? `(${n})` : `${n}` `` does.  The digit expansion uses fuel so that
the definition is structural (hence evaluates inside the kernel). -/

/-- Character of a decimal digit. -/
def digitChar (d : Nat) : Char := Char.ofNat (48 + d)

/-- Decimal digit list of a natural number, fuelled. -/
def natDecAux : Nat → Nat → List Char
  | 0, _ => []
  | fuel + 1, n =>
    if n < 10 then [digitChar n]
    else natDecAux fuel (n / 10) ++ [digitChar (n % 10)]

/-- Decimal digit list of a natural number. -/
def natDec (n : Nat) : List Char := natDecAux (n + 1) n

/-- Decimal rendering of an integer, as `${n}` produces it. -/
def intDecChars (n : Int) : List Char :=
  if n < 0 then '-' :: natDec n.natAbs else natDec n.natAbs

/-- Operand formatting of `generateProblem`: parenthesize negative operands,
render non-negative ones bare. -/
def fmtChars (n : Int) : List Char :=
  if n < 0 then '(' :: (intDecChars n ++ [')']) else intDecChars n

/-- Display symbol of an operator:
`operator === '/' ? '÷' : operator === '*' ? '×' : operator`. -/
def opSymChars (operator : Char) : List Char :=
  if operator = '/' then ['÷'] else if operator = '*' then ['×'] else [operator]

/-! ### Problem generation -/

/-- Problem record, mirroring `type Problem`. -/
structure Problem where
  question : String
  answer : Int
deriving DecidableEq, Repr

/-- Random draws consumed by one call to `generateProblem`.
`opIdx` models `Math.floor(Math.random() * ops.length)`;
`draw1`/`draw2` model `Math.floor(Math.random() * (max - min + 1))`;
`neg1`/`neg2` model the two `Math.random() > 0.5` coin flips (consulted only
when `config.negatives` is set, as in the source). -/
structure Rand where
  opIdx : Nat
  draw1 : Nat
  draw2 : Nat
  neg1 : Bool
  neg2 : Bool
deriving DecidableEq, Repr

/-- Candidate operator list built from the true operator flags, in source
order `+ - * /`. -/
def opsFor (c : Config) : List Char :=
  (if c.add then ['+'] else []) ++ (if c.sub then ['-'] else []) ++
    (if c.mul then ['*'] else []) ++ (if c.div then ['/'] else [])

/-- Lower end of the operand range: `config.doubleDigits ? 10 : 1`. -/
def rangeMin (c : Config) : Int := if c.doubleDigits then 10 else 1

/-- One drawn operand: `Math.floor(Math.random() * (max - min + 1)) + min`,
negated when `config.negatives` is set and the coin flip says so. -/
def drawnOperand (c : Config) (draw : Nat) (neg : Bool) : Int :=
  if c.negatives && neg then -(rangeMin c + draw) else rangeMin c + draw

/-- The `switch (operator)` of `generateProblem`: final value of `num1`
(redefined to `num1 * num2` in the `'/'` case before display) paired with
`answer` (initialized to `0`, hence `0` on the unreachable default). -/
def genParts (operator : Char) (num1 num2 : Int) : Int × Int :=
  if operator = '+' then (num1, num1 + num2)
  else if operator = '-' then (num1, num1 - num2)
  else if operator = '*' then (num1, num1 * num2)
  else if operator = '/' then (num1 * num2, num1 * num2 / num2)
  else (num1, 0)

/-- Embedding of `generateProblem`.  Returns `none` exactly when the operator
index falls outside the candidate list (in JS this yields an `undefined`
operator and a garbage problem; it is unreachable while at least one operator
flag is set and the index is a valid random draw). -/
def generateProblem (c : Config) (r : Rand) : Option Problem :=
  match (opsFor c)[r.opIdx]? with
  | none => none
  | some operator =>
    let num1 := drawnOperand c r.draw1 r.neg1
    let num2 := drawnOperand c r.draw2 r.neg2
    let res := genParts operator num1 num2
    some { question := String.mk (fmtChars res.1 ++ ' ' :: opSymChars operator ++ ' ' :: fmtChars num2),
           answer := res.2 }

/-! ### Evaluating a displayed question string

The spec claims the `answer` of every generated problem equals the value of
the displayed `question` string under standard integer arithmetic, reading a
parenthesized operand as a negative number.  `evalQuestion` makes that
precise: split the string on spaces into `operand symbol operand`, read each
operand (parenthesized-negative or plain decimal), and apply the symbol;
`÷` only evaluates when the divisor is nonzero and divides the dividend
exactly. -/

/-- Numeric value of a decimal digit character. -/
def digitVal (c : Char) : Option Nat :=
  if '0' ≤ c ∧ c ≤ '9' then some (c.toNat - 48) else none

/-- Left fold of decimal digits onto an accumulator; fails on any non-digit. -/
def parseNatAux (acc : Nat) : List Char → Option Nat
  | [] => some acc
  | c :: cs =>
    match digitVal c with
    | some d => parseNatAux (10 * acc + d) cs
    | none => none

/-- Parse a non-empty all-digit character list as a natural number. -/
def parseNatChars (cs : List Char) : Option Nat :=
  if cs = [] then none else parseNatAux 0 cs

/-- Split a character list on single spaces (spaces are delimiters, never part
of a fragment). -/
def splitSp : List Char → List (List Char)
  | [] => [[]]
  | c :: rest =>
    let r := splitSp rest
    if c = ' ' then [] :: r
    else
      match r with
      | [] => [[c]]
      | w :: ws => (c :: w) :: ws

/-- Read a displayed operand: `(-ddd)` is the corresponding negative number,
otherwise the fragment must be a bare decimal numeral. -/
def parseOperand (cs : List Char) : Option Int :=
  match cs with
  | '(' :: '-' :: rest =>
    if rest.getLast? = some ')' then
      (parseNatChars rest.dropLast).map (fun n => -(n : Int))
    else none
  | _ => (parseNatChars cs).map (fun n => (n : Int))

/-- Apply a displayed operator symbol under standard integer arithmetic.
Division is only defined for a nonzero divisor dividing the dividend
exactly. -/
def evalOp (op : List Char) (x y : Int) : Option Int :=
  if op = ['+'] then some (x + y)
  else if op = ['-'] then some (x - y)
  else if op = ['×'] then some (x * y)
  else if op = ['÷'] then
    if y ≠ 0 ∧ y ∣ x then some (x / y) else none
  else none

/-- Value of a displayed question string, when it is well-formed. -/
def evalQuestion (s : String) : Option Int :=
  match splitSp s.data with
  | [a, o, b] =>
    match parseOperand a, parseOperand b with
    | some x, some y => evalOp o x y
    | _, _ => none
  | _ => none

/-! ### Parsing user input

`handleAnswer` runs the submitted text through `parseInt(userInput)`.
`parseIntJS` models radix-10 `parseInt`: skip leading whitespace, accept an
optional sign, then read the longest leading digit run; fail (JS `NaN`) when
that run is empty.  (The legacy hex behaviour on a literal `0x` prefix is not
modelled; no claim depends on it.) -/

/-- Whitespace characters skipped by `parseInt`. -/
def isJsSpace (c : Char) : Bool :=
  c = ' ' || c = '\t' || c = '\n' || c = '\r'

/-- Longest leading digit run, as a number; `none` when there is none. -/
def leadingDigits (cs : List Char) : Option Nat :=
  parseNatChars (cs.takeWhile (fun c => (digitVal c).isSome))

/-- Embedding of `parseInt(s)` (radix 10): `none` is JS `NaN`. -/
def parseIntJS (s : String) : Option Int :=
  match s.data.dropWhile isJsSpace with
  | '-' :: rest => (leadingDigits rest).map (fun n => -(n : Int))
  | '+' :: rest => (leadingDigits rest).map (fun n => (n : Int))
  | cs => (leadingDigits cs).map (fun n => (n : Int))

/-! ### Session state machine

The component's mutable bindings become the fields of `AppState`; each event
handler becomes a state transition.  `inputClass` (a CSS class string) and
input-focus management are presentation-only and are not modelled. -/

/-- Per-answer record, mirroring `type HistoryItem`. -/
structure HistoryItem where
  q : String
  correct : Int
  user : Int
  isCorrect : Bool
deriving DecidableEq, Repr

/-- Persisted per-round record, mirroring `type GameRecord`; `date` is the
epoch timestamp of the ISO date string. -/
structure GameRecord where
  id : Int
  date : Int
  score : Int
  accuracy : Int
  config : Config
deriving DecidableEq, Repr

/-- Screens, mirroring `type Screen`. -/
inductive Screen where
  | menu | game | result | history
deriving DecidableEq, Repr

/-- Pending feedback `setTimeout` scheduled by `handleAnswer`: the 150-unit
delay after a correct answer, or the 400-unit shake delay after a wrong
one. -/
inductive FeedbackKind where
  | correctDelay
  | incorrectDelay
deriving DecidableEq, Repr

/-- The component's mutable state.  `timerArmed` is whether `timerInterval`
currently holds a live interval; `pendingFeedback` is the queue of feedback
`setTimeout` callbacks that have been scheduled but have not yet fired (the
source keeps no handle to them, so nothing ever cancels them). -/
structure AppState where
  screen : Screen
  config : Config
  score : Int
  timeLeft : Int
  timerArmed : Bool
  currentProblem : Problem
  sessionHistory : List HistoryItem
  pastGames : List GameRecord
  userInput : String
  shaking : Bool
  pendingFeedback : List FeedbackKind
deriving DecidableEq, Repr

/-- Accuracy of a session history:
`Math.round((correctCount / sessionHistory.length) * 100)` when any attempt
was made, else `0`.  `Math.round x` for `x ≥ 0` is `⌊x + 1/2⌋`. -/
def accuracyOf (h : List HistoryItem) : Int :=
  if h.length = 0 then 0
  else ⌊((((h.filter (·.isCorrect)).length : ℚ) / (h.length : ℚ)) * 100 + 1 / 2 : ℚ)⌋

/-- Replace `currentProblem` with a freshly generated one and clear the input
field, as the `generateProblem()` statement does (the `none` branch is
unreachable while the config invariant holds). -/
def applyGenerate (st : AppState) (r : Rand) : AppState :=
  match generateProblem st.config r with
  | some p => { st with currentProblem := p, userInput := "" }
  | none => st

/-- Embedding of `handleAnswer`: parse the input (no-op on `NaN`), append a
history item, and on a match bump the score.  Each branch schedules its
feedback `setTimeout`, which is queued, not run, here. -/
def handleAnswer (st : AppState) : AppState :=
  match parseIntJS st.userInput with
  | none => st
  | some val =>
    let isCorrect := val = st.currentProblem.answer
    let st1 := { st with
      sessionHistory := st.sessionHistory ++
        [({ q := st.currentProblem.question, correct := st.currentProblem.answer,
            user := val, isCorrect := isCorrect } : HistoryItem)] }
    if isCorrect then
      { st1 with score := st1.score + 1,
                 pendingFeedback := st1.pendingFeedback ++ [FeedbackKind.correctDelay] }
    else
      { st1 with shaking := true,
                 pendingFeedback := st1.pendingFeedback ++ [FeedbackKind.incorrectDelay] }

/-- Fire the oldest pending feedback callback: the correct-answer callback is
`generateProblem`; the wrong-answer callback clears `shaking` first.  The
callbacks run whatever the current screen is — the source never cancels
them. -/
def fireFeedback (st : AppState) (r : Rand) : AppState :=
  match st.pendingFeedback with
  | [] => st
  | k :: rest =>
    let st1 := { st with pendingFeedback := rest }
    match k with
    | FeedbackKind.correctDelay => applyGenerate st1 r
    | FeedbackKind.incorrectDelay => applyGenerate { st1 with shaking := false } r

/-- Embedding of `startGame`: reset the round state, switch to the game
screen, generate the first problem, and (re-)arm the countdown interval.
Pending feedback callbacks are untouched. -/
def startGame (st : AppState) (r : Rand) : AppState :=
  let st1 := { st with score := 0, timeLeft := 60, sessionHistory := [],
                       userInput := "", screen := Screen.game }
  let st2 := applyGenerate st1 r
  { st2 with timerArmed := true }

/-- Embedding of `abandonGame`: disarm the countdown and return to the menu.
Pending feedback callbacks are untouched. -/
def abandonGame (st : AppState) : AppState :=
  { st with timerArmed := false, screen := Screen.menu }

/-- Embedding of `endGame`: disarm the countdown, build the round's
`GameRecord` (its fresh `id` and `date` stamps are inputs here), prepend it
to `pastGames`, truncate to 50, and show the result screen.  Pending
feedback callbacks are untouched. -/
def endGame (st : AppState) (idArg dateArg : Int) : AppState :=
  let record : GameRecord :=
    { id := idArg, date := dateArg, score := st.score,
      accuracy := accuracyOf st.sessionHistory, config := st.config }
  { st with timerArmed := false,
            pastGames := (record :: st.pastGames).take 50,
            screen := Screen.result }

/-- One countdown tick: decrement `timeLeft` and end the game at zero.  The
interval only fires while armed. -/
def tick (st : AppState) (idArg dateArg : Int) : AppState :=
  if st.timerArmed then
    let st1 := { st with timeLeft := st.timeLeft - 1 }
    if st1.timeLeft ≤ 0 then endGame st1 idArg dateArg else st1
  else st

/-! ### Persistence load

`onMount` runs
`const saved = localStorage.getItem(k); if (saved) pastGames = JSON.parse(saved);`
with no `try`/`catch`.  `localStorage.getItem` returning `null` is `none`;
`JSON.parse` is an external fallible parser passed in as a parameter, whose
`Except.error` outcome is the thrown `SyntaxError`.  A thrown parse error
therefore propagates out of the load. -/

/-- Embedding of the `onMount` hydration of `pastGames`. -/
def loadPastGames (parse : String → Except String (List GameRecord))
    (saved : Option String) : Except String (List GameRecord) :=
  match saved with
  | none => Except.ok []
  | some s => if s = "" then Except.ok [] else parse s

/-! ### Leaderboard aggregation

`getLeaderboards` groups `pastGames` by configuration key through a JS `Map`
(which preserves key-insertion order — modelled as an association list built
by `pushRecord`), sorts each group with the comparator
`(a, b) => b.score - a.score || dateB - dateA`, truncates to ten, and sorts
the groups by the date of their top entry.  `Array.prototype.sort` is stable,
so both sorts are modelled by a stable insertion sort parameterized by the
strict comes-before relation `comparator a b < 0`. -/

/-- Embedding of `configKey`: active operator symbols joined bare, then the
active modifier tags joined by a comma inside parentheses (omitted when no
modifier is active). -/
def configKey (c : Config) : String :=
  let ops := (if c.add then ["+"] else []) ++ (if c.sub then ["-"] else []) ++
    (if c.mul then ["×"] else []) ++ (if c.div then ["÷"] else [])
  let mods := (if c.negatives then ["neg"] else []) ++
    (if c.doubleDigits then ["2x"] else [])
  String.join ops ++
    (if mods.length ≠ 0 then " (" ++ String.intercalate ", " mods ++ ")" else "")

/-- Strict comes-before relation of the entry comparator
`b.score - a.score || dateB - dateA`: higher score first, then more recent
first. -/
def entryLt (a b : GameRecord) : Bool :=
  b.score < a.score || (a.score = b.score && b.date < a.date)

/-- Stable insertion of one element into a sorted list: `x` goes after every
element that strictly comes before it, so it lands after elements equal to it
(the behaviour of a stable sort on ties). -/
def insertSorted (lt : α → α → Bool) (x : α) : List α → List α
  | [] => [x]
  | y :: l => if lt y x then y :: insertSorted lt x l else x :: y :: l

/-- Stable sort by a strict comes-before relation, as
`Array.prototype.sort` (stable per the ECMAScript spec) with a comparator. -/
def stableSort (lt : α → α → Bool) : List α → List α
  | [] => []
  | x :: l => insertSorted lt x (stableSort lt l)

/-- Append one record to its group, creating the group at the end on first
sight of its key (JS `Map` set/push in insertion order). -/
def pushRecord : List (String × Config × List GameRecord) → GameRecord →
    List (String × Config × List GameRecord)
  | [], g => [(configKey g.config, g.config, [g])]
  | (k, c, es) :: rest, g =>
    if k = configKey g.config then (k, c, es ++ [g]) :: rest
    else (k, c, es) :: pushRecord rest g

/-- Group the records by configuration key, in key-first-seen order, each
group in record order. -/
def groupRecords (games : List GameRecord) : List (String × Config × List GameRecord) :=
  games.foldl pushRecord []

/-- One leaderboard, mirroring the objects `getLeaderboards` returns. -/
structure LBGroup where
  key : String
  config : Config
  entries : List GameRecord
deriving DecidableEq, Repr

/-- Date of a board's top entry: `new Date(b.entries[0]?.date || 0).getTime()`. -/
def topEntryDate (b : LBGroup) : Int :=
  match b.entries.head? with
  | some e => e.date
  | none => 0

/-- Strict comes-before relation of the board comparator: more recent top
entry first. -/
def groupLt (a b : LBGroup) : Bool :=
  topEntryDate b < topEntryDate a

/-- Embedding of `getLeaderboards`. -/
def getLeaderboards (games : List GameRecord) : List LBGroup :=
  let boards := (groupRecords games).map fun kce =>
    { key := kce.1, config := kce.2.1,
      entries := (stableSort entryLt kce.2.2).take 10 : LBGroup }
  stableSort groupLt boards

/-! ### Concrete sample values

Used by the concrete scenarios below. -/

/-- Configuration with only division enabled. -/
def divOnlyCfg : Config := ⟨false, false, false, true, false, false⟩

/-- Configuration with only subtraction enabled. -/
def subOnlyCfg : Config := ⟨false, true, false, false, false, false⟩

/-- Configuration with only addition enabled. -/
def addOnlyCfg : Config := ⟨true, false, false, false, false, false⟩

/-- The default configuration of the component. -/
def defaultCfg : Config := ⟨true, true, true, false, false, false⟩

/-- An in-round state: game screen, countdown armed, given problem on display
and given text in the answer field. -/
def inGame (p : Problem) (inp : String) : AppState :=
  { screen := Screen.game, config := addOnlyCfg, score := 0, timeLeft := 60,
    timerArmed := true, currentProblem := p, sessionHistory := [],
    pastGames := [], userInput := inp, shaking := false, pendingFeedback := [] }

/-- A stand-in for `JSON.parse` applied to a corrupt blob: it throws
(`Except.error`) on every input. -/
def jsonParseFail : String → Except String (List GameRecord) :=
  fun _ => Except.error "SyntaxError"

/-- Sample same-config records for the leaderboard scenario: scores 10, 20,
20 at timestamps 1 < 2 < 3. -/
def recT1 : GameRecord := ⟨1, 1, 10, 50, defaultCfg⟩

/-- Second scenario record: score 20 at timestamp 2. -/
def recT2 : GameRecord := ⟨2, 2, 20, 50, defaultCfg⟩

/-- Third scenario record: score 20 at timestamp 3. -/
def recT3 : GameRecord := ⟨3, 3, 20, 50, defaultCfg⟩

/-- The single board the tie scenario should produce. -/
def scenarioBoard : LBGroup :=
  { key := configKey defaultCfg, config := defaultCfg,
    entries := [recT3, recT2, recT1] }

/-- Ranking order the spec claims inside a leaderboard: strictly higher score
first, ties broken by more recent timestamp first. -/
def rankedGe (a b : GameRecord) : Prop :=
  b.score < a.score ∨ (a.score = b.score ∧ b.date ≤ a.date)

/-- Order the spec claims for the boards themselves: more recent top entry
first. -/
def boardGe (a b : LBGroup) : Prop :=
  topEntryDate b ≤ topEntryDate a

/-! ### Lemmas: decimal rendering and parsing -/

theorem digitVal_digitChar (d : Nat) (h : d < 10) : digitVal (digitChar d) = some d := by
  interval_cases d <;> decide

theorem digitChar_ne_space (d : Nat) (h : d < 10) : digitChar d ≠ ' ' := by
  interval_cases d <;> decide

theorem digitChar_ne_lparen (d : Nat) (h : d < 10) : digitChar d ≠ '(' := by
  interval_cases d <;> decide

theorem natDecAux_ne_nil (fuel n : Nat) (h : n < fuel) : natDecAux fuel n ≠ [] := by
  cases fuel with
  | zero => omega
  | succ fuel =>
    rw [natDecAux]
    split <;> simp

theorem mem_natDecAux (fuel n : Nat) (h : n < fuel) :
    ∀ c ∈ natDecAux fuel n, ∃ d, d < 10 ∧ c = digitChar d := by
  induction fuel generalizing n with
  | zero => omega
  | succ fuel ih =>
    rw [natDecAux]
    split
    · rename_i h10
      intro c hc
      simp at hc
      exact ⟨n, h10, hc⟩
    · rename_i h10
      intro c hc
      simp at hc
      rcases hc with hc | hc
      · exact ih (n / 10) (by omega) c hc
      · exact ⟨n % 10, by omega, hc⟩

theorem parseNatAux_append (l1 l2 : List Char) (acc : Nat) :
    parseNatAux acc (l1 ++ l2) =
      match parseNatAux acc l1 with
      | some v => parseNatAux v l2
      | none => none := by
  induction l1 generalizing acc with
  | nil => simp [parseNatAux]
  | cons c cs ih =>
    simp only [List.cons_append, parseNatAux]
    cases digitVal c with
    | none => simp
    | some d => simp [ih]

theorem parseNatAux_natDecAux (fuel n acc : Nat) (h : n < fuel) :
    parseNatAux acc (natDecAux fuel n) =
      some (acc * 10 ^ (natDecAux fuel n).length + n) := by
  induction fuel generalizing n acc with
  | zero => omega
  | succ fuel ih =>
    rw [natDecAux]
    split
    · rename_i h10
      simp [parseNatAux, digitVal_digitChar n h10, Nat.mul_comm]
    · rename_i h10
      rw [parseNatAux_append, ih (n / 10) acc (by omega)]
      simp only [parseNatAux, digitVal_digitChar (n % 10) (by omega)]
      have hlen : (natDecAux fuel (n / 10) ++ [digitChar (n % 10)]).length
          = (natDecAux fuel (n / 10)).length + 1 := by simp
      rw [hlen]
      have : 10 * (acc * 10 ^ (natDecAux fuel (n / 10)).length + n / 10) + n % 10
          = acc * 10 ^ ((natDecAux fuel (n / 10)).length + 1) + n := by
        rw [pow_succ]
        have := Nat.div_add_mod n 10
        ring_nf
        omega
      rw [this]

theorem parseNatChars_natDec (n : Nat) : parseNatChars (natDec n) = some n := by
  unfold parseNatChars natDec
  rw [if_neg (natDecAux_ne_nil (n + 1) n (by omega))]
  rw [parseNatAux_natDecAux (n + 1) n 0 (by omega)]
  simp

/-! ### Lemmas: operand formatting roundtrip -/

theorem mem_natDec (n : Nat) : ∀ c ∈ natDec n, ∃ d, d < 10 ∧ c = digitChar d :=
  mem_natDecAux (n + 1) n (by omega)

theorem natDec_ne_nil (n : Nat) : natDec n ≠ [] :=
  natDecAux_ne_nil (n + 1) n (by omega)

theorem natDec_no_space (n : Nat) : ∀ c ∈ natDec n, c ≠ ' ' := by
  intro c hc
  obtain ⟨d, hd, rfl⟩ := mem_natDec n c hc
  exact digitChar_ne_space d hd

theorem intDecChars_no_space (z : Int) : ∀ c ∈ intDecChars z, c ≠ ' ' := by
  intro c hc
  by_cases hz : z < 0
  · rw [intDecChars, if_pos hz] at hc
    rcases List.mem_cons.mp hc with h | h
    · subst h; decide
    · exact natDec_no_space _ c h
  · rw [intDecChars, if_neg hz] at hc
    exact natDec_no_space _ c hc

theorem fmtChars_no_space (z : Int) : ∀ c ∈ fmtChars z, c ≠ ' ' := by
  intro c hc
  by_cases hz : z < 0
  · rw [fmtChars, if_pos hz] at hc
    rcases List.mem_cons.mp hc with h | h
    · subst h; decide
    · rcases List.mem_append.mp h with h2 | h2
      · exact intDecChars_no_space z c h2
      · simp at h2; subst h2; decide
  · rw [fmtChars, if_neg hz] at hc
    exact intDecChars_no_space z c hc

theorem parseOperand_not_lparen (c : Char) (cs : List Char) (hc : c ≠ '(') :
    parseOperand (c :: cs) = (parseNatChars (c :: cs)).map (fun n => (n : Int)) := by
  unfold parseOperand
  split
  · rename_i rest heq
    rw [List.cons.injEq] at heq
    exact absurd heq.1 hc
  · rfl

theorem parseOperand_neg_form (ds : List Char) :
    parseOperand ('(' :: '-' :: (ds ++ [')'])) =
      (parseNatChars ds).map (fun n => -(n : Int)) := by
  unfold parseOperand
  split
  · rename_i rest heq
    have hrest : rest = ds ++ [')'] := (by simpa using heq : ds ++ [')'] = rest).symm
    subst hrest
    rw [List.getLast?_concat, if_pos rfl, List.dropLast_concat]
  · rename_i hne
    exact absurd rfl (hne (ds ++ [')']))

theorem parseOperand_fmtChars (z : Int) : parseOperand (fmtChars z) = some z := by
  by_cases hz : z < 0
  · have hform : fmtChars z = '(' :: '-' :: (natDec z.natAbs ++ [')']) := by
      rw [fmtChars, if_pos hz, intDecChars, if_pos hz]
      simp
    rw [hform, parseOperand_neg_form, parseNatChars_natDec]
    show some (-(z.natAbs : Int)) = some z
    rw [Int.ofNat_natAbs_of_nonpos (by omega)]
    simp
  · have hform : fmtChars z = natDec z.natAbs := by
      rw [fmtChars, if_neg hz, intDecChars, if_neg hz]
    obtain ⟨c, cs, hcons⟩ : ∃ c cs, natDec z.natAbs = c :: cs := by
      cases h : natDec z.natAbs with
      | nil => exact absurd h (natDec_ne_nil _)
      | cons c cs => exact ⟨c, cs, rfl⟩
    have hc : c ≠ '(' := by
      obtain ⟨d, hd, rfl⟩ := mem_natDec z.natAbs c (by rw [hcons]; simp)
      exact digitChar_ne_lparen d hd
    rw [hform, hcons, parseOperand_not_lparen c cs hc, ← hcons, parseNatChars_natDec]
    show some ((z.natAbs : Int)) = some z
    rw [Int.natAbs_of_nonneg (by omega)]

/-! ### Lemmas: splitting the question string -/

theorem splitSp_ne_nil (cs : List Char) : splitSp cs ≠ [] := by
  cases cs with
  | nil => simp [splitSp]
  | cons c rest =>
    rw [splitSp]
    split
    · simp
    · split <;> simp

theorem splitSp_no_space (b : List Char) (hb : ∀ c ∈ b, c ≠ ' ') :
    splitSp b = [b] := by
  induction b with
  | nil => rfl
  | cons c rest ih =>
    rw [splitSp]
    rw [if_neg (hb c (by simp))]
    rw [ih (fun x hx => hb x (by simp [hx]))]

theorem splitSp_append_space (a b : List Char) (ha : ∀ c ∈ a, c ≠ ' ') :
    splitSp (a ++ ' ' :: b) = a :: splitSp b := by
  induction a with
  | nil => simp [splitSp]
  | cons c rest ih =>
    simp only [List.cons_append]
    rw [splitSp]
    rw [if_neg (ha c (by simp))]
    rw [ih (fun x hx => ha x (by simp [hx]))]

theorem splitSp_three (a o b : List Char)
    (ha : ∀ c ∈ a, c ≠ ' ') (ho : ∀ c ∈ o, c ≠ ' ') (hb : ∀ c ∈ b, c ≠ ' ') :
    splitSp (a ++ ' ' :: (o ++ ' ' :: b)) = [a, o, b] := by
  rw [splitSp_append_space a _ ha, splitSp_append_space o _ ho, splitSp_no_space b hb]

/-- Assembling a question from formatted operands and a space-free symbol
evaluates to whatever `evalOp` yields on the operands. -/
theorem evalQuestion_build (d1 d2 : Int) (sym : List Char) (v : Int)
    (hsym : ∀ c ∈ sym, c ≠ ' ')
    (heval : evalOp sym d1 d2 = some v) :
    evalQuestion (String.mk (fmtChars d1 ++ ' ' :: sym ++ ' ' :: fmtChars d2)) = some v := by
  have hassoc : fmtChars d1 ++ ' ' :: sym ++ ' ' :: fmtChars d2
      = fmtChars d1 ++ ' ' :: (sym ++ ' ' :: fmtChars d2) := by
    simp [List.append_assoc]
  unfold evalQuestion
  show (match splitSp (fmtChars d1 ++ ' ' :: sym ++ ' ' :: fmtChars d2) with
    | [a, o, b] =>
      match parseOperand a, parseOperand b with
      | some x, some y => evalOp o x y
      | _, _ => none
    | _ => none) = some v
  rw [hassoc, splitSp_three _ _ _ (fmtChars_no_space d1) hsym (fmtChars_no_space d2)]
  simp only [parseOperand_fmtChars]
  exact heval

/-! ### Lemmas: the generator -/

theorem mem_opsFor (c : Config) (op : Char) (h : op ∈ opsFor c) :
    op = '+' ∨ op = '-' ∨ op = '*' ∨ op = '/' := by
  unfold opsFor at h
  split_ifs at h <;> simp_all <;> tauto

theorem rangeMin_pos (c : Config) : 1 ≤ rangeMin c := by
  unfold rangeMin
  split <;> norm_num

theorem drawnOperand_ne_zero (c : Config) (d : Nat) (b : Bool) :
    drawnOperand c d b ≠ 0 := by
  unfold drawnOperand
  have h1 := rangeMin_pos c
  have h2 : (0 : Int) ≤ (d : Int) := Int.natCast_nonneg d
  split <;> omega

/-- C1: for every configuration with an active operator and every valid
random draw, `generateProblem` succeeds and returns a problem whose `answer`
is the value of the displayed `question` string under standard integer
arithmetic (parenthesized operands read as negatives, division exact); in
particular the division scenario with operands 4 and 3 displays `12 ÷ 3`
with answer 4. -/
theorem generate_correct :
    (∀ (c : Config) (r : Rand), r.opIdx < (opsFor c).length →
      ∃ p, generateProblem c r = some p ∧ evalQuestion p.question = some p.answer) ∧
    generateProblem divOnlyCfg ⟨0, 3, 2, false, false⟩ =
      some { question := "12 ÷ 3", answer := 4 } := by
  constructor
  · intro c r hidx
    have hop : (opsFor c)[r.opIdx]? = some ((opsFor c).get ⟨r.opIdx, hidx⟩) := by
      rw [List.getElem?_eq_getElem hidx]
      rfl
    set op := (opsFor c).get ⟨r.opIdx, hidx⟩ with hopdef
    have hmem : op ∈ opsFor c := List.get_mem (opsFor c) r.opIdx hidx
    set n1 := drawnOperand c r.draw1 r.neg1 with hn1
    set n2 := drawnOperand c r.draw2 r.neg2 with hn2
    have hgen : generateProblem c r = some {
        question := String.mk (fmtChars (genParts op n1 n2).1 ++
          ' ' :: opSymChars op ++ ' ' :: fmtChars n2),
        answer := (genParts op n1 n2).2 } := by
      rw [generateProblem.eq_def, hop]
    rcases mem_opsFor c op hmem with h | h | h | h <;> rw [h] at hgen
    · have hparts : genParts '+' n1 n2 = (n1, n1 + n2) := rfl
      rw [hparts] at hgen
      exact ⟨_, hgen, evalQuestion_build n1 n2 ['+'] (n1 + n2) (by decide) rfl⟩
    · have hparts : genParts '-' n1 n2 = (n1, n1 - n2) := rfl
      rw [hparts] at hgen
      exact ⟨_, hgen, evalQuestion_build n1 n2 ['-'] (n1 - n2) (by decide) rfl⟩
    · have hparts : genParts '*' n1 n2 = (n1, n1 * n2) := rfl
      rw [hparts] at hgen
      exact ⟨_, hgen, evalQuestion_build n1 n2 ['×'] (n1 * n2) (by decide) rfl⟩
    · have hparts : genParts '/' n1 n2 = (n1 * n2, n1 * n2 / n2) := rfl
      rw [hparts] at hgen
      refine ⟨_, hgen, evalQuestion_build (n1 * n2) n2 ['÷'] (n1 * n2 / n2) (by decide) ?_⟩
      have hred : evalOp ['÷'] (n1 * n2) n2 =
          if n2 ≠ 0 ∧ n2 ∣ n1 * n2 then some (n1 * n2 / n2) else none := rfl
      rw [hred, if_pos ⟨drawnOperand_ne_zero c r.draw2 r.neg2, dvd_mul_left n2 n1⟩]
  · decide

/-! ### Question formatting (C6) -/

theorem fmtChars_head_lparen_iff (z : Int) :
    (fmtChars z).head? = some '(' ↔ z < 0 := by
  by_cases hz : z < 0
  · rw [fmtChars, if_pos hz]
    simp [hz]
  · rw [fmtChars, if_neg hz, intDecChars, if_neg hz]
    obtain ⟨c, cs, hcons⟩ : ∃ c cs, natDec z.natAbs = c :: cs := by
      cases h : natDec z.natAbs with
      | nil => exact absurd h (natDec_ne_nil _)
      | cons c cs => exact ⟨c, cs, rfl⟩
    have hc : c ≠ '(' := by
      obtain ⟨d, hd, rfl⟩ := mem_natDec z.natAbs c (by rw [hcons]; simp)
      exact digitChar_ne_lparen d hd
    rw [hcons]
    simp [hc, hz]

/-- C6 counterexample: a subtraction problem displays the ASCII hyphen-minus
U+002D, not the Unicode minus sign U+2212 named by the claim. -/
theorem question_uses_ascii_minus :
    generateProblem subOnlyCfg ⟨0, 6, 4, false, false⟩ =
      some { question := "7 - 5", answer := 2 } ∧
    "7 - 5" ≠ "7 − 5" := by decide

/-- C6 amended: operands are rendered bare when non-negative and
parenthesized exactly when negative (and parse back to their value), the
question is composed `<op1> <symbol> <op2>`, and the display symbols are the
Unicode signs `×`, `÷` for multiplication and division but the ASCII
computation characters themselves for `+` and `-`. -/
theorem question_format :
    (∀ z : Int, parseOperand (fmtChars z) = some z ∧
      ((fmtChars z).head? = some '(' ↔ z < 0)) ∧
    (∀ (c : Config) (r : Rand), r.opIdx < (opsFor c).length →
      ∃ p d1 d2 op, generateProblem c r = some p ∧ op ∈ opsFor c ∧
        p.question.data = fmtChars d1 ++ ' ' :: opSymChars op ++ ' ' :: fmtChars d2) ∧
    opSymChars '*' = ['×'] ∧ opSymChars '/' = ['÷'] ∧
    opSymChars '+' = ['+'] ∧ opSymChars '-' = ['-'] := by
  refine ⟨fun z => ⟨parseOperand_fmtChars z, fmtChars_head_lparen_iff z⟩, ?_, rfl, rfl, rfl, rfl⟩
  intro c r hidx
  have hop : (opsFor c)[r.opIdx]? = some ((opsFor c).get ⟨r.opIdx, hidx⟩) := by
    rw [List.getElem?_eq_getElem hidx]
    rfl
  set op := (opsFor c).get ⟨r.opIdx, hidx⟩ with hopdef
  have hmem : op ∈ opsFor c := List.get_mem (opsFor c) r.opIdx hidx
  set n1 := drawnOperand c r.draw1 r.neg1 with hn1
  set n2 := drawnOperand c r.draw2 r.neg2 with hn2
  have hgen : generateProblem c r = some {
      question := String.mk (fmtChars (genParts op n1 n2).1 ++
        ' ' :: opSymChars op ++ ' ' :: fmtChars n2),
      answer := (genParts op n1 n2).2 } := by
    rw [generateProblem.eq_def, hop]
  exact ⟨_, (genParts op n1 n2).1, n2, op, hgen, hmem, rfl⟩

/-! ### Lemmas: stable sorting and grouping (leaderboards) -/

theorem mem_insertSorted (lt : α → α → Bool) (x a : α) (l : List α) :
    a ∈ insertSorted lt x l ↔ a = x ∨ a ∈ l := by
  induction l with
  | nil => simp [insertSorted]
  | cons y ys ih =>
    rw [insertSorted]
    split
    · simp only [List.mem_cons, ih]
      tauto
    · simp only [List.mem_cons]

theorem mem_stableSort (lt : α → α → Bool) (a : α) (l : List α) :
    a ∈ stableSort lt l ↔ a ∈ l := by
  induction l with
  | nil => simp [stableSort]
  | cons y ys ih =>
    rw [stableSort, mem_insertSorted]
    simp [ih]

theorem insertSorted_head (lt : α → α → Bool) (x : α) (l : List α) :
    (insertSorted lt x l).head? = some x ∨ (insertSorted lt x l).head? = l.head? := by
  cases l with
  | nil => left; rfl
  | cons y ys =>
    rw [insertSorted]
    split
    · right; rfl
    · left; rfl

theorem chain_insertSorted (lt : α → α → Bool)
    (hasym : ∀ a b, lt a b = true → lt b a = false) (x : α) (l : List α)
    (h : List.Chain' (fun a b => lt b a = false) l) :
    List.Chain' (fun a b => lt b a = false) (insertSorted lt x l) := by
  induction l with
  | nil => simp [insertSorted]
  | cons y ys ih =>
    rw [insertSorted]
    have hparts := List.chain'_cons'.mp h
    split
    · rename_i hyx
      rw [List.chain'_cons']
      refine ⟨?_, ih hparts.2⟩
      intro z hz
      rcases insertSorted_head lt x ys with hh | hh
      · rw [hh] at hz
        simp at hz
        subst hz
        exact hasym y x hyx
      · rw [hh] at hz
        exact hparts.1 z hz
    · rename_i hyx
      rw [List.chain'_cons']
      refine ⟨?_, h⟩
      intro z hz
      simp at hz
      subst hz
      simpa using hyx

theorem chain_stableSort (lt : α → α → Bool)
    (hasym : ∀ a b, lt a b = true → lt b a = false) (l : List α) :
    List.Chain' (fun a b => lt b a = false) (stableSort lt l) := by
  induction l with
  | nil => simp [stableSort]
  | cons y ys ih => exact chain_insertSorted lt hasym y _ ih

theorem entryLt_asymm (a b : GameRecord) (h : entryLt a b = true) :
    entryLt b a = false := by
  unfold entryLt at *
  simp only [Bool.or_eq_true, Bool.and_eq_true, decide_eq_true_eq] at h
  simp only [Bool.or_eq_false_iff, Bool.and_eq_false_iff, decide_eq_false_iff_not,
    decide_eq_true_eq]
  constructor
  · omega
  · by_cases hs : b.score = a.score
    · right; omega
    · left; simp [hs]

theorem groupLt_asymm (a b : LBGroup) (h : groupLt a b = true) :
    groupLt b a = false := by
  unfold groupLt at *
  simp only [decide_eq_true_eq] at h
  simp only [decide_eq_false_iff_not]
  omega

theorem entryLt_false_rankedGe (a b : GameRecord) (h : entryLt b a = false) :
    rankedGe a b := by
  unfold entryLt at h
  unfold rankedGe
  simp only [Bool.or_eq_false_iff, Bool.and_eq_false_iff, decide_eq_false_iff_not,
    decide_eq_true_eq] at h
  obtain ⟨h1, h2⟩ := h
  by_cases hs : a.score = b.score
  · right
    refine ⟨hs, ?_⟩
    rcases h2 with h2 | h2
    · exact absurd hs.symm h2
    · omega
  · left
    omega

theorem groupLt_false_boardGe (a b : LBGroup) (h : groupLt b a = false) :
    boardGe a b := by
  unfold groupLt at h
  unfold boardGe
  simp only [decide_eq_false_iff_not] at h
  omega

theorem mem_pushRecord (acc : List (String × Config × List GameRecord))
    (g : GameRecord) (k : String) (cf : Config) (es : List GameRecord)
    (h : (k, cf, es) ∈ pushRecord acc g) :
    ∀ e ∈ es, e = g ∨ ∃ k2 cf2 es2, (k2, cf2, es2) ∈ acc ∧ e ∈ es2 := by
  induction acc with
  | nil =>
    simp [pushRecord] at h
    intro e he
    rw [h.2.2] at he
    simp at he
    left
    exact he
  | cons hd tl ih =>
    obtain ⟨k1, cf1, es1⟩ := hd
    rw [pushRecord] at h
    split at h
    · rcases List.mem_cons.mp h with heq | hmem
      · intro e he
        have hes : es = es1 ++ [g] := by
          have := congrArg (fun t => t.2.2) heq
          simpa using this
        rw [hes] at he
        rcases List.mem_append.mp he with h1 | h1
        · right
          exact ⟨k1, cf1, es1, by simp, h1⟩
        · left
          simpa using h1
      · intro e he
        right
        exact ⟨k, cf, es, by simp [hmem], he⟩
    · rcases List.mem_cons.mp h with heq | hmem
      · intro e he
        right
        refine ⟨k1, cf1, es1, by simp, ?_⟩
        have : es = es1 := by
          have := congrArg (fun t => t.2.2) heq
          simpa using this
        rw [← this]
        exact he
      · intro e he
        rcases ih hmem e he with h1 | ⟨k2, cf2, es2, hin, hee⟩
        · left; exact h1
        · right; exact ⟨k2, cf2, es2, by simp [hin], hee⟩

theorem mem_groupRecords_aux (games : List GameRecord) :
    ∀ (acc : List (String × Config × List GameRecord)) (k : String) (cf : Config)
      (es : List GameRecord), (k, cf, es) ∈ games.foldl pushRecord acc →
      ∀ e ∈ es, e ∈ games ∨ ∃ k2 cf2 es2, (k2, cf2, es2) ∈ acc ∧ e ∈ es2 := by
  induction games with
  | nil =>
    intro acc k cf es h e he
    right
    exact ⟨k, cf, es, h, he⟩
  | cons g gs ih =>
    intro acc k cf es h e he
    rcases ih (pushRecord acc g) k cf es h e he with h1 | ⟨k2, cf2, es2, hin, hee⟩
    · left
      simp [h1]
    · rcases mem_pushRecord acc g k2 cf2 es2 hin e hee with rfl | ⟨k3, cf3, es3, hin3, hee3⟩
      · left
        simp
      · right
        exact ⟨k3, cf3, es3, hin3, hee3⟩

theorem mem_groupRecords (games : List GameRecord) (k : String) (cf : Config)
    (es : List GameRecord) (h : (k, cf, es) ∈ groupRecords games) :
    ∀ e ∈ es, e ∈ games := by
  intro e he
  rcases mem_groupRecords_aux games [] k cf es h e he with h1 | ⟨k2, cf2, es2, hin, _⟩
  · exact h1
  · simp at hin

/-- C2: within each leaderboard the entries are ranked by score descending
with ties broken by more recent date first and truncated to at most ten, all
entries come from the input records, the boards are ordered by most recent
top entry first, and the three-record tie scenario ranks
`[20@t3, 20@t2, 10@t1]`. -/
theorem getLeaderboards_ranking :
    (∀ (games : List GameRecord) (g : LBGroup), g ∈ getLeaderboards games →
      List.Chain' rankedGe g.entries ∧ g.entries.length ≤ 10 ∧
      ∀ e ∈ g.entries, e ∈ games) ∧
    (∀ games : List GameRecord, List.Chain' boardGe (getLeaderboards games)) ∧
    getLeaderboards [recT1, recT2, recT3] = [scenarioBoard] := by
  refine ⟨?_, ?_, by decide⟩
  · intro games g hg
    unfold getLeaderboards at hg
    rw [mem_stableSort] at hg
    obtain ⟨kce, hkce, rfl⟩ := List.mem_map.mp hg
    obtain ⟨k, cf, es⟩ := kce
    refine ⟨?_, ?_, ?_⟩
    · exact ((chain_stableSort entryLt entryLt_asymm es).take 10).imp
        (fun a b hab => entryLt_false_rankedGe a b hab)
    · exact List.length_take_le 10 _
    · intro e he
      have he2 : e ∈ stableSort entryLt es := List.take_subset 10 _ he
      rw [mem_stableSort] at he2
      exact mem_groupRecords games k cf es hkce e he2
  · intro games
    unfold getLeaderboards
    exact (chain_stableSort groupLt groupLt_asymm _).imp
      (fun a b hab => groupLt_false_boardGe a b hab)

/-! ### Claim theorems: configuration, scoring, session, persistence -/

/-- C5: toggling preserves the at-least-one-operator invariant, toggling the
sole active operator flag is a no-op, and toggling a modifier flag is never
blocked. -/
theorem toggleConfig_invariant :
    ∀ (c : Config) (k : ConfigKey), 1 ≤ activeOps c →
      1 ≤ activeOps (toggleConfig c k) ∧
      (isOpKey k = true → activeOps c = 1 → getFlag c k = true → toggleConfig c k = c) ∧
      (isOpKey k = false → toggleConfig c k = setFlag c k (!getFlag c k)) := by
  decide

/-- C5 witness: the theorem applied to the addition-only configuration and
its sole active flag. -/
theorem toggleConfig_invariant_witness :
    1 ≤ activeOps addOnlyCfg ∧
    (1 ≤ activeOps (toggleConfig addOnlyCfg ConfigKey.add) ∧
      (isOpKey ConfigKey.add = true → activeOps addOnlyCfg = 1 →
        getFlag addOnlyCfg ConfigKey.add = true →
        toggleConfig addOnlyCfg ConfigKey.add = addOnlyCfg) ∧
      (isOpKey ConfigKey.add = false → toggleConfig addOnlyCfg ConfigKey.add =
        setFlag addOnlyCfg ConfigKey.add (!getFlag addOnlyCfg ConfigKey.add))) :=
  ⟨by decide, toggleConfig_invariant addOnlyCfg ConfigKey.add (by decide)⟩

/-- C8: ending a round prepends the freshly built record and truncates the
persisted list to 50: the new list is the record followed by the first 49 old
entries, has length at most 50, and has the new record first. -/
theorem endGame_record_cap (st : AppState) (idArg dateArg : Int) :
    (endGame st idArg dateArg).pastGames =
      ({ id := idArg, date := dateArg, score := st.score,
         accuracy := accuracyOf st.sessionHistory, config := st.config } : GameRecord)
        :: st.pastGames.take 49 ∧
    (endGame st idArg dateArg).pastGames.length ≤ 50 ∧
    (endGame st idArg dateArg).pastGames.head? =
      some { id := idArg, date := dateArg, score := st.score,
             accuracy := accuracyOf st.sessionHistory, config := st.config } := by
  refine ⟨rfl, ?_, rfl⟩
  show (List.take 50 _).length ≤ 50
  exact List.length_take_le 50 _

/-- C9: the session accuracy is an integer between 0 and 100 and is 0 for an
empty history. -/
theorem accuracy_in_range :
    (∀ h : List HistoryItem, 0 ≤ accuracyOf h ∧ accuracyOf h ≤ 100) ∧
    accuracyOf [] = 0 := by
  refine ⟨?_, rfl⟩
  intro h
  unfold accuracyOf
  by_cases hn : h.length = 0
  · rw [if_pos hn]
    exact ⟨le_refl 0, by norm_num⟩
  · rw [if_neg hn]
    have hnpos : 0 < h.length := Nat.pos_of_ne_zero hn
    have hle : (h.filter (·.isCorrect)).length ≤ h.length := List.length_filter_le _ _
    have hq : (0 : ℚ) < (h.length : ℚ) := by exact_mod_cast hnpos
    have hdiv : ((h.filter (·.isCorrect)).length : ℚ) / (h.length : ℚ) ≤ 1 := by
      rw [div_le_one hq]
      exact_mod_cast hle
    have hnn : (0 : ℚ) ≤ ((h.filter (·.isCorrect)).length : ℚ) / (h.length : ℚ) := by
      positivity
    constructor
    · apply Int.le_floor.mpr
      push_cast
      nlinarith
    · have h101 : (⌊(((h.filter (·.isCorrect)).length : ℚ) / (h.length : ℚ)) * 100
          + 1 / 2⌋ : Int) < 101 := by
        apply Int.floor_lt.mpr
        push_cast
        nlinarith
      omega

/-- C7 counterexample: a corrupt stored blob is not turned into an empty
history — the parse error propagates out of the load. -/
theorem load_corrupt_propagates :
    loadPastGames jsonParseFail (some "corrupt") = Except.error "SyntaxError" ∧
    loadPastGames jsonParseFail (some "corrupt") ≠ Except.ok [] := by
  refine ⟨rfl, fun h => ?_⟩
  rw [show loadPastGames jsonParseFail (some "corrupt") = Except.error "SyntaxError" from rfl] at h
  exact Except.noConfusion h

/-- C7 amended: an absent stored value hydrates the empty list, but when the
stored blob is corrupt (the parser throws) the error propagates uncaught. -/
theorem load_absent_empty_corrupt_throws :
    (∀ parse : String → Except String (List GameRecord),
      loadPastGames parse none = Except.ok []) ∧
    (∀ (parse : String → Except String (List GameRecord)) (s e : String),
      s ≠ "" → parse s = Except.error e →
      loadPastGames parse (some s) = Except.error e) := by
  refine ⟨fun parse => rfl, ?_⟩
  intro parse s e hs hp
  show (if s = "" then Except.ok [] else parse s) = Except.error e
  rw [if_neg hs]
  exact hp

/-- C7 witness: the amended theorem applied to the failing parser and the
concrete corrupt blob. -/
theorem load_absent_empty_corrupt_throws_witness :
    loadPastGames jsonParseFail (some "corrupt") = Except.error "SyntaxError" :=
  load_absent_empty_corrupt_throws.2 jsonParseFail "corrupt" "SyntaxError"
    (by decide) rfl

/-- C10: input with a parseable leading integer, such as `"12abc"`, is not
rejected: it is scored against the prefix value (a history entry is appended
and the score can change); only input with no parseable leading integer is a
no-op. -/
theorem submission_leading_integer_scored :
    parseIntJS "12abc" = some 12 ∧
    (handleAnswer (inGame { question := "5 + 7", answer := 12 } "12abc")).sessionHistory =
      [{ q := "5 + 7", correct := 12, user := 12, isCorrect := true }] ∧
    (handleAnswer (inGame { question := "5 + 7", answer := 12 } "12abc")).score = 1 ∧
    (∀ st : AppState, parseIntJS st.userInput = none → handleAnswer st = st) := by
  refine ⟨by decide, by decide, by decide, ?_⟩
  intro st hst
  unfold handleAnswer
  rw [hst]

/-- C10 witness: the no-op clause applied to a concrete non-numeric
submission. -/
theorem submission_leading_integer_scored_witness :
    handleAnswer (inGame { question := "3 + 4", answer := 7 } "abc") =
      inGame { question := "3 + 4", answer := 7 } "abc" :=
  submission_leading_integer_scored.2.2.2 _ (by decide)

/-- C3 (code bug): there is no reentrancy guard — submitting the same
correct answer twice against the same problem, before the feedback callback
replaces it, appends two history entries and increments the score twice. -/
theorem double_submission_double_scored :
    (handleAnswer (inGame { question := "3 + 4", answer := 7 } "7")).pendingFeedback =
      [FeedbackKind.correctDelay] ∧
    (handleAnswer (handleAnswer (inGame { question := "3 + 4", answer := 7 } "7"))).currentProblem =
      { question := "3 + 4", answer := 7 } ∧
    (handleAnswer (handleAnswer (inGame { question := "3 + 4", answer := 7 } "7"))).score = 2 ∧
    (handleAnswer (handleAnswer (inGame { question := "3 + 4", answer := 7 } "7"))).sessionHistory.length = 2 := by
  decide

/-- C4 (code bug): neither `abandonGame` nor `endGame` cancels a pending
feedback callback (the source never stores the `setTimeout` handles), so a
stale callback fires after the round is over and replaces the current
problem — including the first problem of a freshly started new round. -/
theorem stale_feedback_survives_cancellation :
    (abandonGame (handleAnswer (inGame { question := "3 + 4", answer := 7 } "8"))).pendingFeedback =
      [FeedbackKind.incorrectDelay] ∧
    (abandonGame (handleAnswer (inGame { question := "3 + 4", answer := 7 } "8"))).timerArmed = false ∧
    (fireFeedback (startGame (abandonGame (handleAnswer
        (inGame { question := "3 + 4", answer := 7 } "8"))) ⟨0, 2, 3, false, false⟩)
        ⟨0, 4, 5, false, false⟩).currentProblem ≠
      (startGame (abandonGame (handleAnswer
        (inGame { question := "3 + 4", answer := 7 } "8"))) ⟨0, 2, 3, false, false⟩).currentProblem ∧
    (endGame (handleAnswer (inGame { question := "3 + 4", answer := 7 } "8")) 100 100).pendingFeedback =
      [FeedbackKind.incorrectDelay] ∧
    (fireFeedback (endGame (handleAnswer (inGame { question := "3 + 4", answer := 7 } "8")) 100 100)
        ⟨0, 4, 5, false, false⟩).currentProblem ≠
      (endGame (handleAnswer (inGame { question := "3 + 4", answer := 7 } "8")) 100 100).currentProblem := by
  decide

/-- C1 witness: the generator correctness theorem applied to the
division-only configuration with operand draws 4 and 3. -/
theorem generate_correct_witness :
    ∃ p, generateProblem divOnlyCfg ⟨0, 3, 2, false, false⟩ = some p ∧
      evalQuestion p.question = some p.answer :=
  generate_correct.1 divOnlyCfg ⟨0, 3, 2, false, false⟩ (by decide)

/-- C2 witness: the ranking theorem applied to the concrete tie scenario's
single resulting board. -/
theorem getLeaderboards_ranking_witness :
    List.Chain' rankedGe scenarioBoard.entries ∧
    scenarioBoard.entries.length ≤ 10 ∧
    ∀ e ∈ scenarioBoard.entries, e ∈ [recT1, recT2, recT3] :=
  getLeaderboards_ranking.1 [recT1, recT2, recT3] scenarioBoard (by decide)

/-- C6 witness: the amended formatting theorem applied to the
subtraction-only configuration with operand draws 7 and 5. -/
theorem question_format_witness :
    ∃ p d1 d2 op, generateProblem subOnlyCfg ⟨0, 6, 4, false, false⟩ = some p ∧
      op ∈ opsFor subOnlyCfg ∧
      p.question.data = fmtChars d1 ++ ' ' :: opSymChars op ++ ' ' :: fmtChars d2 :=
  question_format.2.1 subOnlyCfg ⟨0, 6, 4, false, false⟩ (by decide)
